import Mathlib

/-!
Shallow embedding of the payroll computation engine of the work-to-buy
application (main variant, `src/App.tsx`): the time normalizer
(`handleHourInput`, `handleTimeInput`, `handleLunchMinutesInput`,
`getLunchMinutes`, `getOriginalHours`), the period indexer
(`getIndexInfo`, `getSemiMonthlyInfo`, `getMonthlyInfo`), the payroll
engine (`detailedHistory`, here `computeDetailedDays`), the pay-period
summary (`biWeeklySummary`) and the budget progress calculator
(`totalItemPrice`, `totalItemTax`, `totalAfterTaxItemPrice`,
`progressPct`).

JavaScript numbers are modelled as exact rationals, `Math.round` as
round-half-up (floor of `x + 1/2`), and calendar dates as explicit
year/month/day triples; the millisecond arithmetic of
`getIndexInfo` is modelled as exact calendar-day arithmetic
(`toDays`), matching the source's intent of calendar-local day
differences.  The JavaScript field name `end` is a reserved word in
Lean and is rendered `endT`.
-/

namespace WorkToBuy

/-! ## Dates.

A calendar date `YYYY-MM-DD`.  The application compares date strings
lexicographically; for fixed-width zero-padded dates that order agrees
with the lexicographic order on (year, month, day) modelled here. -/

structure Date where
  year : ℕ
  month : ℕ
  day : ℕ
deriving DecidableEq, Repr

/-- Lexicographic (string) order on dates. -/
def dateLe (a b : Date) : Prop :=
  a.year < b.year ∨ (a.year = b.year ∧ (a.month < b.month ∨
    (a.month = b.month ∧ a.day ≤ b.day)))

instance (a b : Date) : Decidable (dateLe a b) := by
  unfold dateLe; infer_instance

/-- Boolean comparator used for sorting entries by date. -/
def dateLeB (a b : Date) : Bool := decide (dateLe a b)

/-- Leap-year test of the Gregorian calendar (what `new Date(y, m+1, 0)`
computes the month lengths from). -/
def isLeap (y : ℕ) : Bool := decide ((y % 4 = 0 ∧ ¬ y % 100 = 0) ∨ y % 400 = 0)

/-- Number of days in a month, as produced by `new Date(year, month + 1, 0).getDate()`. -/
def daysInMonth (y m : ℕ) : ℕ :=
  match m with
  | 1 => 31 | 2 => if isLeap y then 29 else 28 | 3 => 31 | 4 => 30
  | 5 => 31 | 6 => 30 | 7 => 31 | 8 => 31 | 9 => 30 | 10 => 31
  | 11 => 30 | 12 => 31 | _ => 0

/-- A structurally valid calendar date. -/
def validDate (d : Date) : Prop :=
  1 ≤ d.year ∧ 1 ≤ d.month ∧ d.month ≤ 12 ∧ 1 ≤ d.day ∧ d.day ≤ daysInMonth d.year d.month

instance (d : Date) : Decidable (validDate d) := by
  unfold validDate; infer_instance

/-- Count of leap years in `1..y`. -/
def leapsUpTo (y : ℕ) : ℤ :=
  ((y / 4 : ℕ) : ℤ) - ((y / 100 : ℕ) : ℤ) + ((y / 400 : ℕ) : ℤ)

/-- Days preceding month `m` inside a year. -/
def daysBeforeMonth (y m : ℕ) : ℕ :=
  (match m with
   | 1 => 0 | 2 => 31 | 3 => 59 | 4 => 90 | 5 => 120 | 6 => 151 | 7 => 181
   | 8 => 212 | 9 => 243 | 10 => 273 | 11 => 304 | 12 => 334 | _ => 365)
  + (if isLeap y = true ∧ 3 ≤ m then 1 else 0)

/-- Absolute day number of a date.  Differences of `toDays` are the
calendar-day differences that `getIndexInfo` computes from millisecond
timestamps. -/
def toDays (d : Date) : ℤ :=
  365 * (d.year : ℤ) + leapsUpTo (d.year - 1)
    + (daysBeforeMonth d.year d.month : ℤ) + (d.day : ℤ)

example : toDays ⟨2024, 3, 1⟩ - toDays ⟨2024, 2, 28⟩ = 2 := by decide
example : toDays ⟨2023, 3, 1⟩ - toDays ⟨2023, 2, 28⟩ = 1 := by decide
example : toDays ⟨2024, 1, 8⟩ - toDays ⟨2024, 1, 1⟩ = 7 := by decide
example : toDays ⟨2025, 1, 1⟩ - toDays ⟨2024, 12, 31⟩ = 1 := by decide

/-! ## Numeric primitives. -/

/-- JavaScript `Math.round`: round half toward positive infinity. -/
def jsRound (q : ℚ) : ℤ := ⌊q + 1/2⌋

/-- The source's `round2`: `Math.round(n * 100) / 100`. -/
def round2 (q : ℚ) : ℚ := (jsRound (q * 100) : ℚ) / 100

example : round2 (270.4 * 0.117) = 31.64 := by norm_num [round2, jsRound]
example : round2 2.675 = 2.68 := by norm_num [round2, jsRound]

/-! ## Engine constants (from the source). -/

def INCOME_TAX_RATE : ℚ := 0.117
def EMPLOYEE_INSURANCE_RATE : ℚ := 0.0164
def CPP_RATE : ℚ := 0.05482
def BIWEEKLY_TAXFREE_THRESHOLD : ℚ := 88
def BIWEEKLY_BONUS_RATE : ℚ := 0.04
def WEEKLY_OVERTIME_THRESHOLD : ℚ := 44
def OVERTIME_MULTIPLIER : ℚ := 1.5
def DEFAULT_LUNCH_MINUTES : ℚ := 30

/-! ## Day records. -/

/-- A stored clock-time field.  JavaScript holds a string here: absent
(`undefined`/`null`) is `none`, the empty string (falsy) is
`some .empty`, and a formatted time `HH:MM` is `some (.clock h m)`. -/
inductive TimeVal where
  | empty : TimeVal
  | clock (h m : ℕ) : TimeVal
deriving DecidableEq, Repr

/-- Truthiness of a stored time field (JavaScript `if (entry.start)`). -/
def jsTruthy : Option TimeVal → Bool
  | some (.clock _ _) => true
  | _ => false

/-- The `DayHours` record of the source. -/
structure DayHours where
  date : Date
  start : Option TimeVal := none
  endT : Option TimeVal := none
  hours : Option ℚ := none
  lunch : Option Bool := none
  lunchMinutes : Option ℚ := none
  originalHours : Option ℚ := none
deriving DecidableEq, Repr

/-- The source's `clampLunchMinutes`: default 30 when absent, else
round and clamp into `[0, 180]`. -/
def clampLunchMinutes (v : Option ℚ) : ℚ :=
  match v with
  | none => DEFAULT_LUNCH_MINUTES
  | some q => ((max 0 (min 180 (jsRound q)) : ℤ) : ℚ)

/-- The source's `getLunchMinutes`: 0 when there is no entry, the
clamped stored value when one is stored, 0 when the legacy
`lunch:false` flag is set, else the 30-minute default. -/
def getLunchMinutes (entry : Option DayHours) : ℚ :=
  match entry with
  | none => 0
  | some e =>
    match e.lunchMinutes with
    | some v => clampLunchMinutes (some v)
    | none => if e.lunch = some false then 0 else DEFAULT_LUNCH_MINUTES

/-- The source's `getOriginalHours`. -/
def getOriginalHours (e : DayHours) : Option ℚ :=
  match e.originalHours with
  | some v => some v
  | none =>
    if e.hours ≠ none ∧ jsTruthy e.start = false ∧ jsTruthy e.endT = false then
      e.hours
    else none

/-! ## Time normalizer operations.

Each handler edits the `dayHours` collection (a list of `DayHours`).
A raw text input is modelled after trimming and `Number(...)` parsing:
blank, non-numeric, or a finite numeric value. -/

inductive RawInput where
  | blank : RawInput
  | notNum : RawInput
  | num (q : ℚ) : RawInput
deriving DecidableEq, Repr

/-- The source's `handleHourInput`.  `none` models the validation-error
path (`notify` and no state update); `some s` the new collection. -/
def handleHourInput (s : List DayHours) (date : Date) (raw : RawInput) :
    Option (List DayHours) :=
  match raw with
  | .blank => some (s.filter (fun p => p.date ≠ date))
  | .notNum => none
  | .num n =>
    if n < 0 ∨ n > 24 then none
    else
      let other := s.filter (fun p => p.date ≠ date)
      let existing := s.find? (fun p => p.date = date)
      let lunchMinutes := getLunchMinutes existing
      let originalHours := n
      let hours := max 0 (n - lunchMinutes / 60)
      some (other ++ [{ date := date, hours := some hours,
                        lunchMinutes := some lunchMinutes,
                        originalHours := some originalHours }])

/-- Which clock field a time-picker edit targets. -/
inductive TimeField where
  | start : TimeField
  | endT : TimeField
deriving DecidableEq, Repr

/-- Write a clock field of a `DayHours` record. -/
def setTimeField (e : DayHours) (f : TimeField) (v : Option TimeVal) : DayHours :=
  match f with
  | .start => { e with start := v }
  | .endT => { e with endT := v }

/-- The source's `handleTimeInput`.  The picker value is `none` when
cleared, else an `(hour, minute)` pair that is stored formatted. -/
def handleTimeInput (s : List DayHours) (date : Date) (f : TimeField)
    (value : Option (ℕ × ℕ)) : List DayHours :=
  let other := s.filter (fun p => p.date ≠ date)
  let existing := (s.find? (fun p => p.date = date)).getD
    { date := date, start := some .empty, endT := some .empty }
  let lunchMinutes := getLunchMinutes (some existing)
  let updated := { setTimeField existing f
      (value.map (fun vm => TimeVal.clock vm.1 vm.2)) with
    lunchMinutes := some lunchMinutes }
  let hours : Option ℚ :=
    if jsTruthy updated.start && jsTruthy updated.endT then
      match updated.start, updated.endT with
      | some (.clock sh sm), some (.clock eh em) =>
        let startMins : ℚ := sh * 60 + sm
        let endMins : ℚ := eh * 60 + em - lunchMinutes
        let hrs := (endMins - startMins) / 60
        if hrs < 0 ∨ hrs > 24 then none else some hrs
      | _, _ => none
    else none
  other ++ [{ updated with hours := hours }]

/-- The source's `handleLunchMinutesInput`. -/
def handleLunchMinutesInput (s : List DayHours) (date : Date)
    (raw : RawInput) : List DayHours :=
  match raw with
  | .blank =>
    let other := s.filter (fun p => p.date ≠ date)
    let existing := (s.find? (fun p => p.date = date)).getD { date := date }
    other ++ [{ existing with lunchMinutes := none }]
  | .notNum => s
  | .num parsed =>
    let lunchMinutes := clampLunchMinutes (some parsed)
    let other := s.filter (fun p => p.date ≠ date)
    let existing := (s.find? (fun p => p.date = date)).getD { date := date }
    let updated := { existing with lunchMinutes := some lunchMinutes }
    let originalHours := getOriginalHours updated
    let updated2 :=
      if jsTruthy updated.start && jsTruthy updated.endT then
        match updated.start, updated.endT with
        | some (.clock sh sm), some (.clock eh em) =>
          let startMins : ℚ := sh * 60 + sm
          let endMins : ℚ := eh * 60 + em
          let hrs := (endMins - startMins) / 60 - lunchMinutes / 60
          { updated with hours :=
              if 0 ≤ hrs ∧ hrs ≤ 24 then some (round2 hrs) else none }
        | _, _ => updated
      else if originalHours ≠ none ∧ jsTruthy updated.start = false ∧
          jsTruthy updated.endT = false then
        match originalHours with
        | some o =>
          { updated with
            originalHours := some o
            hours := some (max 0 (round2 (o - lunchMinutes / 60))) }
        | none => updated
      else updated
    other ++ [updated2]

/-! ## Period indexer. -/

/-- Exact calendar-day difference, the value `getIndexInfo` computes as
`Math.floor((dt - start) / (1000*3600*24))`. -/
def diffDays (startDate d : Date) : ℤ := toDays d - toDays startDate

/-- The source's `weekIndex`: `Math.floor(diffDays / 7)`. -/
def weekIndex (startDate d : Date) : ℤ := ⌊(diffDays startDate d : ℚ) / 7⌋

/-- The source's `biWeekIndex`: `Math.floor(diffDays / 14)`. -/
def biWeekIndex (startDate d : Date) : ℤ := ⌊(diffDays startDate d : ℚ) / 14⌋

/-- Period display info: arithmetic index plus optional boundary dates. -/
structure PeriodInfo where
  index : ℤ
  start : Option Date := none
  endT : Option Date := none
deriving DecidableEq, Repr

/-- The source's `getSemiMonthlyInfo` (month is `getMonth()`, zero-based,
hence `month - 1` here). -/
def getSemiMonthlyInfo (d : Date) : PeriodInfo :=
  let half : ℤ := if d.day ≤ 15 then 0 else 1
  let startDay := if d.day ≤ 15 then 1 else 16
  let endDay := if d.day ≤ 15 then 15 else daysInMonth d.year d.month
  { index := (d.year : ℤ) * 24 + ((d.month : ℤ) - 1) * 2 + half,
    start := some ⟨d.year, d.month, startDay⟩,
    endT := some ⟨d.year, d.month, endDay⟩ }

/-- The source's `getMonthlyInfo`. -/
def getMonthlyInfo (d : Date) : PeriodInfo :=
  { index := (d.year : ℤ) * 12 + ((d.month : ℤ) - 1),
    start := some ⟨d.year, d.month, 1⟩,
    endT := some ⟨d.year, d.month, daysInMonth d.year d.month⟩ }

/-! ## Payroll engine (the source's `detailedHistory` memo). -/

/-- A filtered day entry: date plus its non-null stored hours. -/
structure DayRec where
  date : Date
  hours : ℚ
deriving DecidableEq, Repr

/-- The result row type of `detailedHistory`. -/
structure DetailedDay where
  date : Date
  hours : ℚ
  earnings : ℚ
  incomeTax : ℚ
  employeeInsurance : ℚ
  cpp : ℚ
  afterTax : ℚ
deriving DecidableEq, Repr

/-- The all-zero row pushed for entries with `hours <= 0`. -/
def zeroDay (d : Date) : DetailedDay :=
  { date := d, hours := 0, earnings := 0, incomeTax := 0,
    employeeInsurance := 0, cpp := 0, afterTax := 0 }

/-- Deduction and rounding block shared by both regimes
(source lines computing `incomeTax` .. `afterTax` and the pushed row). -/
def finishRow (d : Date) (h earnings taxableEarnings : ℚ) : DetailedDay :=
  let incomeTax := round2 (taxableEarnings * INCOME_TAX_RATE)
  let employeeInsurance := round2 (taxableEarnings * EMPLOYEE_INSURANCE_RATE)
  let cpp := round2 (taxableEarnings * CPP_RATE)
  let afterTax := round2 (earnings - incomeTax - employeeInsurance - cpp)
  { date := d, hours := h, earnings := round2 earnings,
    incomeTax := incomeTax, employeeInsurance := employeeInsurance,
    cpp := cpp, afterTax := afterTax }

/-- Tax-free hours of a day under the special regime. -/
def dayTaxFree (h biWeekHours : ℚ) : ℚ :=
  if biWeekHours > BIWEEKLY_TAXFREE_THRESHOLD ∧ biWeekHours > 0 then
    min (round2 ((h / biWeekHours) * (biWeekHours - BIWEEKLY_TAXFREE_THRESHOLD))) h
  else 0

/-- One day's row under the special (`"3495"`) regime. -/
def unlawfulRow (rate h biWeekHours : ℚ) (d : Date) : DetailedDay :=
  let bonusMultiplier := 1 + BIWEEKLY_BONUS_RATE
  let earnings := h * rate * bonusMultiplier
  let taxableHours := max 0 (h - dayTaxFree h biWeekHours)
  let taxableEarnings := taxableHours * rate * bonusMultiplier
  finishRow d h earnings taxableEarnings

/-- One day's row under the standard weekly-overtime regime, given the
hours already counted in this day's week. -/
def standardRow (rate workedSoFar h : ℚ) (d : Date) : DetailedDay :=
  let bonusMultiplier := 1 + BIWEEKLY_BONUS_RATE
  let regularHours := max 0 (min h (WEEKLY_OVERTIME_THRESHOLD - workedSoFar))
  let overtimeHours := max 0 (h - regularHours)
  let regularEarnings := regularHours * rate * bonusMultiplier
  let overtimeEarnings := overtimeHours * rate * OVERTIME_MULTIPLIER * bonusMultiplier
  finishRow d h (regularEarnings + overtimeEarnings) (regularEarnings + overtimeEarnings)

/-- The filtered entries (`dayHours.filter(d => d.hours != null && ...)`). -/
def entriesOf (s : List DayHours) : List DayRec :=
  s.filterMap (fun d => d.hours.map (fun h => ⟨d.date, h⟩))

/-- Entries sorted by date (`sort((a, b) => a.date.localeCompare(b.date))`). -/
def sortEntries (l : List DayRec) : List DayRec :=
  l.mergeSort (fun a b => dateLeB a.date b.date)

/-- The `biWeeklyTotals` map: total hours stored in a given bi-week. -/
def biWeekTotal (startDate : Date) (l : List DayRec) (idx : ℤ) : ℚ :=
  ((l.filter (fun r => biWeekIndex startDate r.date = idx)).map (fun r => r.hours)).sum

/-- The main loop of `detailedHistory`: walk the sorted entries carrying
the `weeklyWorked` counter map (a total function, absent keys read 0). -/
def processRows (rate : ℚ) (startDate : Date) (unlawful : Bool)
    (biTotals : ℤ → ℚ) : (ℤ → ℚ) → List DayRec → List DetailedDay
  | _, [] => []
  | weekly, r :: rest =>
    if r.hours ≤ 0 then
      zeroDay r.date :: processRows rate startDate unlawful biTotals weekly rest
    else if unlawful then
      unlawfulRow rate r.hours (biTotals (biWeekIndex startDate r.date)) r.date ::
        processRows rate startDate unlawful biTotals weekly rest
    else
      let wk := weekIndex startDate r.date
      let workedSoFar := weekly wk
      standardRow rate workedSoFar r.hours r.date ::
        processRows rate startDate unlawful biTotals
          (fun i => if i = wk then workedSoFar + r.hours else weekly i) rest

/-- The source's `detailedHistory` memo as a pure function. -/
def computeDetailedDays (dayHours : List DayHours) (hourlyRate : ℚ)
    (startDate : Date) (useUnlawfulRule : Bool) : List DetailedDay :=
  let entries := entriesOf dayHours
  if entries = [] then []
  else
    let sorted := sortEntries entries
    processRows hourlyRate startDate useUnlawfulRule
      (biWeekTotal startDate sorted) (fun _ => 0) sorted

/-! ## Pay-period summary (the source's `biWeeklySummary` memo). -/

/-- One day inside a summary bucket. -/
structure SummaryDay where
  date : Date
  hours : ℚ
  earnings : ℚ
deriving DecidableEq, Repr

/-- A summary bucket accumulated per period index. -/
structure SummaryBucket where
  hours : ℚ
  earned : ℚ
  days : List SummaryDay
  start : Option Date
  endT : Option Date
deriving DecidableEq, Repr

/-- Period info per active regime (monthly checked first, as in source). -/
def periodInfoOf (useMonthly useSemiMonthly : Bool) (startDate : Date)
    (d : Date) : PeriodInfo :=
  if useMonthly then getMonthlyInfo d
  else if useSemiMonthly then getSemiMonthlyInfo d
  else { index := biWeekIndex startDate d }

/-- `Map.set` on an insertion-ordered association list. -/
def setAssoc : List (ℤ × SummaryBucket) → ℤ → SummaryBucket → List (ℤ × SummaryBucket)
  | [], k, v => [(k, v)]
  | (k', v') :: rest, k, v =>
    if k' = k then (k, v) :: rest else (k', v') :: setAssoc rest k v

/-- Fold one detailed row into the summary map. -/
def pushDay (useMonthly useSemiMonthly : Bool) (startDate : Date)
    (acc : List (ℤ × SummaryBucket)) (d : DetailedDay) : List (ℤ × SummaryBucket) :=
  let info := periodInfoOf useMonthly useSemiMonthly startDate d.date
  let emptyBucket : SummaryBucket :=
    { hours := 0, earned := 0, days := [], start := info.start, endT := info.endT }
  let cur := ((acc.lookup info.index).getD emptyBucket)
  let cur := if useMonthly || useSemiMonthly then
    { cur with start := info.start, endT := info.endT } else cur
  let cur := { cur with
    hours := cur.hours + d.hours,
    earned := cur.earned + d.earnings,
    days := cur.days ++ [{ date := d.date, hours := d.hours, earnings := d.earnings }] }
  setAssoc acc info.index cur

/-- One displayed summary row. -/
structure SummaryRow where
  index : ℤ
  hours : ℚ
  earned : ℚ
  days : List SummaryDay
  start : Option Date
  endT : Option Date
deriving DecidableEq, Repr

/-- The source's `biWeeklySummary`: bucket the detailed rows, then
renumber (occurrence order for semi-monthly/monthly, raw index + 1 for
bi-weekly). -/
def biWeeklySummary (rows : List DetailedDay) (useMonthly useSemiMonthly : Bool)
    (startDate : Date) : List SummaryRow :=
  let m := rows.foldl (pushDay useMonthly useSemiMonthly startDate) []
  m.enum.map (fun p =>
    { index := if useMonthly || useSemiMonthly then (p.1 : ℤ) + 1 else p.2.1 + 1,
      hours := p.2.2.hours, earned := p.2.2.earned, days := p.2.2.days,
      start := p.2.2.start, endT := p.2.2.endT })

/-! ## Budget progress calculator. -/

/-- A wish-list item. -/
structure Item where
  id : ℕ
  name : String
  price : ℚ
  taxable : Bool
  enabled : Bool
deriving DecidableEq, Repr

/-- `totalEarnedAfterTax`: rounded sum of after-tax daily amounts. -/
def totalEarnedAfterTax (rows : List DetailedDay) : ℚ :=
  round2 (rows.foldl (fun s d => s + d.afterTax) 0)

/-- `totalItemPrice`: sum of prices over enabled items. -/
def totalItemPrice (items : List Item) : ℚ :=
  (items.filter (fun i => i.enabled)).foldl (fun s i => s + i.price) 0

/-- `totalItemTax`: income-tax-rate share over enabled taxable items. -/
def totalItemTax (items : List Item) : ℚ :=
  (items.filter (fun i => i.enabled && i.taxable)).foldl
    (fun s i => s + i.price * INCOME_TAX_RATE) 0

/-- `totalAfterTaxItemPrice`: the total item cost. -/
def totalAfterTaxItemPrice (items : List Item) : ℚ :=
  round2 (totalItemPrice items + totalItemTax items)

/-- `progressPct`: completion percentage, division-guarded and clamped. -/
def progressPct (items : List Item) (rows : List DetailedDay) : ℚ :=
  if totalAfterTaxItemPrice items > 0 then
    min 100 (round2 (totalEarnedAfterTax rows / totalAfterTaxItemPrice items * 100))
  else 0

/-! ## Rounding lemmas. -/

theorem round2_cast_div (x : ℚ) : round2 x = ((jsRound (x * 100) : ℤ) : ℚ) / 100 := rfl

theorem round2_hundredth (k : ℤ) : round2 ((k : ℚ) / 100) = (k : ℚ) / 100 := by
  have hx : ((k : ℚ) / 100) * 100 = (k : ℚ) := by norm_num
  rw [round2, jsRound, hx]
  rw [show ((k : ℚ) + 1/2) = (1 : ℚ)/2 + k by ring, Int.floor_add_int]
  norm_num

theorem round2_sub_hundredth (x : ℚ) (k : ℤ) :
    round2 (x - (k : ℚ) / 100) = round2 x - (k : ℚ) / 100 := by
  have hx : (x - (k : ℚ) / 100) * 100 = x * 100 - (k : ℚ) := by ring
  rw [round2, jsRound, hx]
  rw [show (x * 100 - (k : ℚ) + 1/2) = (x * 100 + 1/2) - k by ring, Int.floor_sub_int]
  rw [round2, jsRound]
  push_cast
  ring

theorem round2_idem_sub (E : ℚ) (a b c : ℤ) :
    round2 (E - (a : ℚ)/100 - (b : ℚ)/100 - (c : ℚ)/100) =
    round2 (round2 E - (a : ℚ)/100 - (b : ℚ)/100 - (c : ℚ)/100) := by
  have h1 : E - (a : ℚ)/100 - (b : ℚ)/100 - (c : ℚ)/100
      = E - ((a + b + c : ℤ) : ℚ)/100 := by push_cast; ring
  have h2 : round2 E - (a : ℚ)/100 - (b : ℚ)/100 - (c : ℚ)/100
      = round2 E - ((a + b + c : ℤ) : ℚ)/100 := by push_cast; ring
  rw [h1, h2, round2_sub_hundredth, round2_cast_div E]
  rw [show ((jsRound (E * 100) : ℤ) : ℚ)/100 - ((a + b + c : ℤ) : ℚ)/100
      = ((jsRound (E * 100) - (a + b + c) : ℤ) : ℚ)/100 by push_cast; ring]
  rw [round2_hundredth]

theorem round2_zero : round2 0 = 0 := by norm_num [round2, jsRound]

/-- The `afterTax` field of any non-zero row satisfies the sum invariant
also against the row's rounded `earnings` field. -/
theorem finishRow_afterTax (d : Date) (h E T : ℚ) :
    (finishRow d h E T).afterTax =
      round2 ((finishRow d h E T).earnings - (finishRow d h E T).incomeTax -
        (finishRow d h E T).employeeInsurance - (finishRow d h E T).cpp) := by
  show round2 (E - round2 (T * INCOME_TAX_RATE) - round2 (T * EMPLOYEE_INSURANCE_RATE)
      - round2 (T * CPP_RATE)) = round2 (round2 E - round2 (T * INCOME_TAX_RATE)
      - round2 (T * EMPLOYEE_INSURANCE_RATE) - round2 (T * CPP_RATE))
  rw [round2_cast_div (T * INCOME_TAX_RATE), round2_cast_div (T * EMPLOYEE_INSURANCE_RATE),
    round2_cast_div (T * CPP_RATE)]
  exact round2_idem_sub E _ _ _

/-- Every row the engine loop emits is either the all-zero row or a
`finishRow` application. -/
theorem mem_processRows_shape (rate : ℚ) (anchor : Date) (u : Bool)
    (bt : ℤ → ℚ) :
    ∀ (l : List DayRec) (w : ℤ → ℚ) (row : DetailedDay),
      row ∈ processRows rate anchor u bt w l →
      (∃ d, row = zeroDay d) ∨ (∃ d h E T, row = finishRow d h E T) := by
  intro l
  induction l with
  | nil => intro w row hrow; simp [processRows] at hrow
  | cons r rest ih =>
    intro w row hrow
    rw [processRows] at hrow
    by_cases h0 : r.hours ≤ 0
    · rw [if_pos h0] at hrow
      rcases List.mem_cons.mp hrow with rfl | hrow'
      · exact Or.inl ⟨r.date, rfl⟩
      · exact ih _ _ hrow'
    · rw [if_neg h0] at hrow
      cases u with
      | true =>
        simp only [if_true] at hrow
        rcases List.mem_cons.mp hrow with rfl | hrow'
        · exact Or.inr ⟨r.date, r.hours, _, _, rfl⟩
        · exact ih _ _ hrow'
      | false =>
        simp only [if_false] at hrow
        rcases List.mem_cons.mp hrow with rfl | hrow'
        · exact Or.inr ⟨r.date, r.hours, _, _, rfl⟩
        · exact ih _ _ hrow'

/-- C3.  For every DetailedDay row produced by computeDetailedDays (both
regimes), the stored fields satisfy incomeTax = round2(taxableEarnings *
0.117), employeeInsurance = round2(taxableEarnings * 0.0164), cpp =
round2(taxableEarnings * 0.05482), and afterTax = round2(earnings -
incomeTax - employeeInsurance - cpp) exactly, where earnings refers to
the row's earnings field. -/
theorem deductions_invariant (s : List DayHours) (rate : ℚ) (anchor : Date)
    (u : Bool) (row : DetailedDay) (hrow : row ∈ computeDetailedDays s rate anchor u) :
    ∃ taxableEarnings : ℚ,
      row.incomeTax = round2 (taxableEarnings * INCOME_TAX_RATE) ∧
      row.employeeInsurance = round2 (taxableEarnings * EMPLOYEE_INSURANCE_RATE) ∧
      row.cpp = round2 (taxableEarnings * CPP_RATE) ∧
      row.afterTax = round2 (row.earnings - row.incomeTax -
        row.employeeInsurance - row.cpp) := by
  rw [computeDetailedDays] at hrow
  by_cases hne : entriesOf s = []
  · rw [if_pos hne] at hrow
    exact absurd hrow (List.not_mem_nil row)
  · rw [if_neg hne] at hrow
    rcases mem_processRows_shape rate anchor u _ _ _ row hrow with
      ⟨d, rfl⟩ | ⟨d, h, E, T, rfl⟩
    · refine ⟨0, ?_, ?_, ?_, ?_⟩
      · show (0 : ℚ) = round2 (0 * INCOME_TAX_RATE)
        rw [zero_mul]; exact round2_zero.symm
      · show (0 : ℚ) = round2 (0 * EMPLOYEE_INSURANCE_RATE)
        rw [zero_mul]; exact round2_zero.symm
      · show (0 : ℚ) = round2 (0 * CPP_RATE)
        rw [zero_mul]; exact round2_zero.symm
      · show (0 : ℚ) = round2 ((0 : ℚ) - 0 - 0 - 0)
        rw [show ((0 : ℚ) - 0 - 0 - 0) = 0 by ring]; exact round2_zero.symm
    · exact ⟨T, rfl, rfl, rfl, finishRow_afterTax d h E T⟩

/-- A sample date used for concrete instantiations (a Monday). -/
def monday0 : Date := ⟨2024, 1, 1⟩

/-- A one-entry collection: 10 stored hours on the sample Monday. -/
def oneDayState : List DayHours := [{ date := monday0, hours := some 10 }]

/-- The row the engine produces for `oneDayState` under the standard
regime at rate 20. -/
def oneDayRow : DetailedDay :=
  { date := monday0, hours := 10, earnings := 208, incomeTax := 24.34,
    employeeInsurance := 3.41, cpp := 11.4, afterTax := 168.85 }

theorem oneDayRow_mem : oneDayRow ∈ computeDetailedDays oneDayState 20 monday0 false := by
  norm_num [computeDetailedDays, entriesOf, oneDayState, sortEntries, processRows,
    standardRow, finishRow, round2, jsRound, zeroDay, weekIndex, biWeekIndex,
    diffDays, toDays, oneDayRow, monday0, INCOME_TAX_RATE, EMPLOYEE_INSURANCE_RATE,
    CPP_RATE, BIWEEKLY_BONUS_RATE, WEEKLY_OVERTIME_THRESHOLD, OVERTIME_MULTIPLIER,
    List.filterMap_cons, List.filterMap_nil, List.mergeSort_singleton]

/-- Witness for `deductions_invariant` at a concrete input. -/
theorem deductions_invariant_witness :
    ∃ taxableEarnings : ℚ,
      oneDayRow.incomeTax = round2 (taxableEarnings * INCOME_TAX_RATE) ∧
      oneDayRow.employeeInsurance = round2 (taxableEarnings * EMPLOYEE_INSURANCE_RATE) ∧
      oneDayRow.cpp = round2 (taxableEarnings * CPP_RATE) ∧
      oneDayRow.afterTax = round2 (oneDayRow.earnings - oneDayRow.incomeTax -
        oneDayRow.employeeInsurance - oneDayRow.cpp) :=
  deductions_invariant oneDayState 20 monday0 false oneDayRow oneDayRow_mem

/-! ## Positional characterization of the engine loop. -/

/-- Hours already counted toward the weekly overtime counter of week
`wk` by the first `i` sorted entries (only days with positive hours
update the counter). -/
def hoursWorkedBefore (anchor : Date) : List DayRec → ℕ → ℤ → ℚ
  | _, 0, _ => 0
  | [], _+1, _ => 0
  | r :: rest, i+1, wk =>
    (if 0 < r.hours ∧ weekIndex anchor r.date = wk then r.hours else 0) +
      hoursWorkedBefore anchor rest i wk

/-- The `i`-th output row of the standard-regime loop, as a function of
the `i`-th entry and the prefix-sum of same-week hours. -/
theorem processRows_false_get (rate : ℚ) (anchor : Date) (bt : ℤ → ℚ) :
    ∀ (l : List DayRec) (w : ℤ → ℚ) (i : ℕ) (r : DayRec), l[i]? = some r →
      (processRows rate anchor false bt w l)[i]? =
        some (if r.hours ≤ 0 then zeroDay r.date
          else standardRow rate
            (w (weekIndex anchor r.date) +
              hoursWorkedBefore anchor l i (weekIndex anchor r.date))
            r.hours r.date) := by
  intro l
  induction l with
  | nil => intro w i r hr; simp at hr
  | cons r0 rest ih =>
    intro w i r hr
    match i with
    | 0 =>
      rw [List.getElem?_cons_zero, Option.some_inj] at hr
      subst hr
      rw [processRows]
      by_cases h0 : r0.hours ≤ 0
      · simp [h0]
      · simp [h0, hoursWorkedBefore]
    | i + 1 =>
      rw [List.getElem?_cons_succ] at hr
      rw [processRows]
      by_cases h0 : r0.hours ≤ 0
      · rw [if_pos h0, List.getElem?_cons_succ, ih w i r hr, hoursWorkedBefore]
        have hc : ¬(0 < r0.hours ∧ weekIndex anchor r0.date = weekIndex anchor r.date) :=
          fun hc => absurd hc.1 (not_lt.mpr h0)
        rw [if_neg hc, zero_add]
      · rw [if_neg h0]
        simp only [Bool.false_eq_true, if_false, List.getElem?_cons_succ]
        have hih := ih (fun j => if j = weekIndex anchor r0.date
          then w (weekIndex anchor r0.date) + r0.hours else w j) i r hr
        rw [hih, hoursWorkedBefore]
        by_cases hz : r.hours ≤ 0
        · rw [if_pos hz, if_pos hz]
        · rw [if_neg hz, if_neg hz, Option.some_inj]
          congr 1
          beta_reduce
          split_ifs with h1 h2 h3
          · rw [h1]; ring
          · exact absurd ⟨not_le.mp h0, h1.symm⟩ h2
          · exact absurd h3.2.symm h1
          · ring

/-- The `i`-th output row of the special-regime loop. -/
theorem processRows_true_get (rate : ℚ) (anchor : Date) (bt : ℤ → ℚ) :
    ∀ (l : List DayRec) (w : ℤ → ℚ) (i : ℕ) (r : DayRec), l[i]? = some r →
      (processRows rate anchor true bt w l)[i]? =
        some (if r.hours ≤ 0 then zeroDay r.date
          else unlawfulRow rate r.hours (bt (biWeekIndex anchor r.date)) r.date) := by
  intro l
  induction l with
  | nil => intro w i r hr; simp at hr
  | cons r0 rest ih =>
    intro w i r hr
    match i with
    | 0 =>
      rw [List.getElem?_cons_zero, Option.some_inj] at hr
      subst hr
      rw [processRows]
      by_cases h0 : r0.hours ≤ 0
      · rw [if_pos h0, List.getElem?_cons_zero, if_pos h0]
      · rw [if_neg h0, if_pos rfl, List.getElem?_cons_zero, if_neg h0]
    | i + 1 =>
      rw [List.getElem?_cons_succ] at hr
      rw [processRows]
      by_cases h0 : r0.hours ≤ 0
      · rw [if_pos h0, List.getElem?_cons_succ, ih w i r hr]
      · rw [if_neg h0, if_pos rfl, List.getElem?_cons_succ, ih w i r hr]

theorem computeDetailedDays_eq_processRows (s : List DayHours) (rate : ℚ)
    (anchor : Date) (u : Bool) :
    computeDetailedDays s rate anchor u =
      processRows rate anchor u (biWeekTotal anchor (sortEntries (entriesOf s)))
        (fun _ => 0) (sortEntries (entriesOf s)) := by
  rw [computeDetailedDays]
  by_cases h : entriesOf s = []
  · rw [if_pos h, h]
    simp [sortEntries, processRows]
  · rw [if_neg h]

/-- A standard-regime week: Monday 2024-01-01 through Friday 2024-01-05,
ten stored hours each, anchored on that Monday. -/
def mondayWeek : List DayHours :=
  [ { date := ⟨2024, 1, 1⟩, hours := some 10 },
    { date := ⟨2024, 1, 2⟩, hours := some 10 },
    { date := ⟨2024, 1, 3⟩, hours := some 10 },
    { date := ⟨2024, 1, 4⟩, hours := some 10 },
    { date := ⟨2024, 1, 5⟩, hours := some 10 } ]

/-- C1.  Under the standard regime, the engine processes entries in
ascending date order with a running per-week counter; for a day with
hours h > 0 in sorted position i the emitted row is the deduction block
applied to earnings regular*rate*1.04 + overtime*rate*1.5*1.04, where
regular = max(0, min(h, 44 - hours already counted in that week)) and
overtime = h - regular, the whole earnings amount taxable; concretely,
for rate 20 and a single Monday-to-Friday week at 10 hours/day anchored
on that Monday, Friday's row has 4 regular hours, 6 overtime hours and
earnings 270.40. -/
theorem standard_regime_daily_split :
    (∀ (s : List DayHours) (rate : ℚ) (anchor : Date) (i : ℕ) (r : DayRec),
      (sortEntries (entriesOf s))[i]? = some r → 0 < r.hours →
      (computeDetailedDays s rate anchor false)[i]? =
        some (
          let W := hoursWorkedBefore anchor (sortEntries (entriesOf s)) i
            (weekIndex anchor r.date)
          let regularHours := max 0 (min r.hours (44 - W))
          let overtimeHours := r.hours - regularHours
          let earnings := regularHours * rate * 1.04 + overtimeHours * rate * 1.5 * 1.04
          finishRow r.date r.hours earnings earnings))
    ∧ hoursWorkedBefore monday0 (sortEntries (entriesOf mondayWeek)) 4
        (weekIndex monday0 ⟨2024, 1, 5⟩) = 40
    ∧ max 0 (min 10 (44 - (40 : ℚ))) = 4 ∧ (10 : ℚ) - 4 = 6
    ∧ (computeDetailedDays mondayWeek 20 monday0 false)[4]? =
        some { date := ⟨2024, 1, 5⟩, hours := 10, earnings := 270.4,
               incomeTax := 31.64, employeeInsurance := 4.43, cpp := 14.82,
               afterTax := 219.51 } := by
  refine ⟨?_, ?_, by norm_num, by norm_num, ?_⟩
  · intro s rate anchor i r hmem hpos
    rw [computeDetailedDays_eq_processRows,
      processRows_false_get rate anchor _ _ _ i r hmem,
      if_neg (not_le.mpr hpos)]
    have hreg_le : max 0 (min r.hours (WEEKLY_OVERTIME_THRESHOLD -
        (0 + hoursWorkedBefore anchor (sortEntries (entriesOf s)) i
          (weekIndex anchor r.date)))) ≤ r.hours :=
      max_le hpos.le (min_le_left _ _)
    rw [standardRow]
    rw [max_eq_right (sub_nonneg.mpr hreg_le)]
    rw [show (1 : ℚ) + BIWEEKLY_BONUS_RATE = 1.04 by norm_num [BIWEEKLY_BONUS_RATE]]
    rw [show WEEKLY_OVERTIME_THRESHOLD = (44 : ℚ) from rfl,
      show OVERTIME_MULTIPLIER = (1.5 : ℚ) from rfl, zero_add]
  · have hsorted : sortEntries (entriesOf mondayWeek) = entriesOf mondayWeek :=
      List.mergeSort_of_sorted (by decide)
    rw [hsorted]
    norm_num [entriesOf, mondayWeek, hoursWorkedBefore, weekIndex, diffDays,
      toDays, monday0, daysBeforeMonth, leapsUpTo, isLeap,
      List.filterMap_cons, List.filterMap_nil]
  · have hsorted : sortEntries (entriesOf mondayWeek) = entriesOf mondayWeek :=
      List.mergeSort_of_sorted (by decide)
    rw [computeDetailedDays_eq_processRows, hsorted]
    norm_num [entriesOf, mondayWeek, processRows, standardRow, finishRow,
      round2, jsRound, weekIndex, biWeekIndex, diffDays, toDays, monday0,
      daysBeforeMonth, leapsUpTo, isLeap, INCOME_TAX_RATE,
      EMPLOYEE_INSURANCE_RATE, CPP_RATE, BIWEEKLY_BONUS_RATE,
      WEEKLY_OVERTIME_THRESHOLD, OVERTIME_MULTIPLIER,
      List.filterMap_cons, List.filterMap_nil]

/-- Witness for `standard_regime_daily_split` at the Friday of the
concrete week. -/
theorem standard_regime_daily_split_witness :
    (sortEntries (entriesOf mondayWeek))[4]? = some (⟨⟨2024, 1, 5⟩, 10⟩ : DayRec) ∧
    (0 : ℚ) < 10 ∧
    (computeDetailedDays mondayWeek 20 monday0 false)[4]? =
      some (
        let W := hoursWorkedBefore monday0 (sortEntries (entriesOf mondayWeek)) 4
          (weekIndex monday0 (⟨2024, 1, 5⟩ : Date))
        let regularHours := max 0 (min (10 : ℚ) (44 - W))
        let overtimeHours := (10 : ℚ) - regularHours
        let earnings := regularHours * 20 * 1.04 + overtimeHours * 20 * 1.5 * 1.04
        finishRow ⟨2024, 1, 5⟩ 10 earnings earnings) := by
  have hsorted : sortEntries (entriesOf mondayWeek) = entriesOf mondayWeek :=
    List.mergeSort_of_sorted (by decide)
  have hmem : (sortEntries (entriesOf mondayWeek))[4]? =
      some (⟨⟨2024, 1, 5⟩, 10⟩ : DayRec) := by
    rw [hsorted]
    norm_num [entriesOf, mondayWeek, List.filterMap_cons, List.filterMap_nil]
  exact ⟨hmem, by norm_num,
    standard_regime_daily_split.1 mondayWeek 20 monday0 4 _ hmem (by norm_num)⟩

/-- A special-regime bi-week: eight days at 11 hours, totaling exactly
the 88-hour tax-free threshold. -/
def week88 : List DayHours :=
  [ { date := ⟨2024, 1, 1⟩, hours := some 11 },
    { date := ⟨2024, 1, 2⟩, hours := some 11 },
    { date := ⟨2024, 1, 3⟩, hours := some 11 },
    { date := ⟨2024, 1, 4⟩, hours := some 11 },
    { date := ⟨2024, 1, 5⟩, hours := some 11 },
    { date := ⟨2024, 1, 6⟩, hours := some 11 },
    { date := ⟨2024, 1, 7⟩, hours := some 11 },
    { date := ⟨2024, 1, 8⟩, hours := some 11 } ]

/-- C2.  Under the special regime, a day with hours h > 0 is not split
by weekly overtime: its row is the deduction block applied to earnings
h*rate*1.04 and taxable earnings (h - taxFreeShare)*rate*1.04, where
taxFreeShare = min(h, round2((h/B)*(B-88))) when the bi-week total B
exceeds 88 and 0 otherwise; in particular a bi-week totaling exactly 88
hours is fully taxable. -/
theorem unlawful_regime_taxfree :
    (∀ (s : List DayHours) (rate : ℚ) (anchor : Date) (i : ℕ) (r : DayRec),
      (sortEntries (entriesOf s))[i]? = some r → 0 < r.hours →
      (computeDetailedDays s rate anchor true)[i]? =
        some (
          let B := biWeekTotal anchor (sortEntries (entriesOf s))
            (biWeekIndex anchor r.date)
          let taxFreeShare :=
            if 88 < B then min r.hours (round2 ((r.hours / B) * (B - 88))) else 0
          finishRow r.date r.hours (r.hours * rate * 1.04)
            ((r.hours - taxFreeShare) * rate * 1.04)))
    ∧ biWeekTotal monday0 (sortEntries (entriesOf week88))
        (biWeekIndex monday0 ⟨2024, 1, 1⟩) = 88
    ∧ (computeDetailedDays week88 20 monday0 true)[0]? =
        some { date := ⟨2024, 1, 1⟩, hours := 11, earnings := 228.8,
               incomeTax := 26.77, employeeInsurance := 3.75, cpp := 12.54,
               afterTax := 185.74 } := by
  refine ⟨?_, ?_, ?_⟩
  · intro s rate anchor i r hmem hpos
    rw [computeDetailedDays_eq_processRows,
      processRows_true_get rate anchor _ _ _ i r hmem,
      if_neg (not_le.mpr hpos)]
    set B := biWeekTotal anchor (sortEntries (entriesOf s))
      (biWeekIndex anchor r.date) with hB
    have hdtf : dayTaxFree r.hours B =
        (if 88 < B then min r.hours (round2 ((r.hours / B) * (B - 88))) else 0) := by
      rw [dayTaxFree]
      by_cases hb : (88 : ℚ) < B
      · rw [if_pos ⟨hb, lt_trans (by norm_num) hb⟩, if_pos hb, min_comm]
        rfl
      · rw [if_neg (fun hc => hb hc.1), if_neg hb]
    have hle : dayTaxFree r.hours B ≤ r.hours := by
      rw [hdtf]
      by_cases hb : (88 : ℚ) < B
      · rw [if_pos hb]; exact min_le_left _ _
      · rw [if_neg hb]; exact hpos.le
    rw [unlawfulRow]
    rw [max_eq_right (sub_nonneg.mpr hle), hdtf]
    rw [show (1 : ℚ) + BIWEEKLY_BONUS_RATE = 1.04 by norm_num [BIWEEKLY_BONUS_RATE]]
  · have hsorted : sortEntries (entriesOf week88) = entriesOf week88 :=
      List.mergeSort_of_sorted (by decide)
    rw [hsorted]
    norm_num [entriesOf, week88, biWeekTotal, biWeekIndex, diffDays, toDays,
      monday0, daysBeforeMonth, leapsUpTo, isLeap, List.filterMap_cons,
      List.filterMap_nil, List.filter]
  · have hsorted : sortEntries (entriesOf week88) = entriesOf week88 :=
      List.mergeSort_of_sorted (by decide)
    rw [computeDetailedDays_eq_processRows, hsorted]
    norm_num [entriesOf, week88, processRows, unlawfulRow, dayTaxFree,
      finishRow, round2, jsRound, biWeekTotal, weekIndex, biWeekIndex,
      diffDays, toDays, monday0, daysBeforeMonth, leapsUpTo, isLeap,
      INCOME_TAX_RATE, EMPLOYEE_INSURANCE_RATE, CPP_RATE,
      BIWEEKLY_BONUS_RATE, BIWEEKLY_TAXFREE_THRESHOLD,
      List.filterMap_cons, List.filterMap_nil, List.filter]

/-- Witness for `unlawful_regime_taxfree` at the first day of the
concrete 88-hour bi-week. -/
theorem unlawful_regime_taxfree_witness :
    (sortEntries (entriesOf week88))[0]? = some (⟨⟨2024, 1, 1⟩, 11⟩ : DayRec) ∧
    (0 : ℚ) < 11 ∧
    (computeDetailedDays week88 20 monday0 true)[0]? =
      some (
        let B := biWeekTotal monday0 (sortEntries (entriesOf week88))
          (biWeekIndex monday0 (⟨2024, 1, 1⟩ : Date))
        let taxFreeShare :=
          if 88 < B then min (11 : ℚ) (round2 (((11 : ℚ) / B) * (B - 88))) else 0
        finishRow ⟨2024, 1, 1⟩ 11 ((11 : ℚ) * 20 * 1.04)
          (((11 : ℚ) - taxFreeShare) * 20 * 1.04)) := by
  have hsorted : sortEntries (entriesOf week88) = entriesOf week88 :=
    List.mergeSort_of_sorted (by decide)
  have hmem : (sortEntries (entriesOf week88))[0]? =
      some (⟨⟨2024, 1, 1⟩, 11⟩ : DayRec) := by
    rw [hsorted]
    norm_num [entriesOf, week88, List.filterMap_cons, List.filterMap_nil]
  exact ⟨hmem, by norm_num,
    unlawful_regime_taxfree.1 week88 20 monday0 0 _ hmem (by norm_num)⟩

theorem foldl_add_eq_sum_map {α : Type} (f : α → ℚ) :
    ∀ (l : List α) (a : ℚ), l.foldl (fun s x => s + f x) a = a + (l.map f).sum := by
  intro l
  induction l with
  | nil => intro a; simp
  | cons x rest ih =>
    intro a
    simp only [List.foldl_cons, List.map_cons, List.sum_cons, ih]
    ring

/-- C4 counterexample.  The calculator rounds the item cost to cents:
for a single enabled taxable item priced 1 it returns 1.12, not the
claim's un-rounded 1 + 1*0.117 = 1.117. -/
theorem progress_cost_counterexample :
    totalAfterTaxItemPrice [⟨1, "", 1, true, true⟩] = 1.12 ∧
    ¬ totalAfterTaxItemPrice [⟨1, "", 1, true, true⟩] = 1 + 1 * 0.117 := by
  have h : totalAfterTaxItemPrice [⟨1, "", 1, true, true⟩] = 1.12 := by
    norm_num [totalAfterTaxItemPrice, totalItemPrice, totalItemTax,
      INCOME_TAX_RATE, round2, jsRound, List.filter]
  exact ⟨h, by rw [h]; norm_num⟩

/-- C4 (amended).  The calculator returns totalItemCost =
round2(sum of price over enabled items + price*0.117 over enabled and
taxable items), and progressPct = min(100, round2(earned/cost*100)) when
the cost is positive, 0 when it is 0; concretely one enabled taxable
item priced 100 gives cost 111.70, and cost 100 with earnings 150 gives
progress exactly 100. -/
theorem progress_calculator :
    (∀ (items : List Item) (rows : List DetailedDay),
      totalAfterTaxItemPrice items =
        round2 (((items.filter (fun i => i.enabled)).map (fun i => i.price)).sum +
          ((items.filter (fun i => i.enabled && i.taxable)).map
            (fun i => i.price * 0.117)).sum) ∧
      (0 < totalAfterTaxItemPrice items →
        progressPct items rows =
          min 100 (round2 (totalEarnedAfterTax rows / totalAfterTaxItemPrice items * 100))) ∧
      (totalAfterTaxItemPrice items = 0 → progressPct items rows = 0))
    ∧ totalAfterTaxItemPrice [⟨1, "", 100, true, true⟩] = 111.7
    ∧ progressPct [⟨1, "", 100, false, true⟩]
        [{ date := ⟨2024, 1, 1⟩, hours := 0, earnings := 0, incomeTax := 0,
           employeeInsurance := 0, cpp := 0, afterTax := 150 }] = 100 := by
  refine ⟨fun items rows => ⟨?_, ?_, ?_⟩, ?_, ?_⟩
  · rw [totalAfterTaxItemPrice, totalItemPrice, totalItemTax,
      foldl_add_eq_sum_map, foldl_add_eq_sum_map, zero_add, zero_add]
    rfl
  · intro hpos
    rw [progressPct, if_pos hpos]
  · intro hz
    rw [progressPct, if_neg (by rw [hz]; exact lt_irrefl 0)]
  · norm_num [totalAfterTaxItemPrice, totalItemPrice, totalItemTax,
      INCOME_TAX_RATE, round2, jsRound, List.filter]
  · norm_num [progressPct, totalAfterTaxItemPrice, totalItemPrice,
      totalItemTax, totalEarnedAfterTax, INCOME_TAX_RATE, round2, jsRound,
      List.filter]

/-- Witness for `progress_calculator` with a positive item cost. -/
theorem progress_calculator_witness :
    0 < totalAfterTaxItemPrice [⟨1, "", 100, true, true⟩] ∧
    progressPct [⟨1, "", 100, true, true⟩] [] =
      min 100 (round2 (totalEarnedAfterTax [] /
        totalAfterTaxItemPrice [⟨1, "", 100, true, true⟩] * 100)) := by
  have hpos : 0 < totalAfterTaxItemPrice [⟨1, "", 100, true, true⟩] := by
    norm_num [totalAfterTaxItemPrice, totalItemPrice, totalItemTax,
      INCOME_TAX_RATE, round2, jsRound, List.filter]
  exact ⟨hpos, ((progress_calculator.1 [⟨1, "", 100, true, true⟩] []).2.1) hpos⟩

/-! ## Calendar monotonicity. -/

theorem leapsUpTo_succ (y : ℕ) :
    leapsUpTo (y + 1) = leapsUpTo y + (if isLeap (y + 1) then 1 else 0) := by
  simp only [leapsUpTo, isLeap, decide_eq_true_eq]
  split_ifs with h
  · omega
  · omega

theorem leapsUpTo_mono {a b : ℕ} (h : a ≤ b) : leapsUpTo a ≤ leapsUpTo b := by
  induction h with
  | refl => exact le_refl _
  | step h ih =>
    refine le_trans ih ?_
    rw [leapsUpTo_succ]
    split_ifs <;> omega

theorem daysBeforeMonth_step (y : ℕ) {m1 m2 : ℕ} (h1 : 1 ≤ m1) (hlt : m1 < m2)
    (h2 : m2 ≤ 12) :
    daysBeforeMonth y m1 + daysInMonth y m1 ≤ daysBeforeMonth y m2 := by
  have hub : m1 ≤ 12 := by omega
  cases hL : isLeap y <;>
    interval_cases m1 <;> interval_cases m2 <;>
    simp_all [daysBeforeMonth, daysInMonth]

theorem daysBeforeMonth_day_le (y m d : ℕ) (hm1 : 1 ≤ m) (hm2 : m ≤ 12)
    (hd : d ≤ daysInMonth y m) :
    daysBeforeMonth y m + d ≤ 365 + (if isLeap y = true then 1 else 0) := by
  cases hL : isLeap y <;>
    interval_cases m <;>
    simp [daysBeforeMonth, daysInMonth, hL] at hd ⊢ <;>
    omega

theorem toDays_mono (d1 d2 : Date) (v1 : validDate d1) (v2 : validDate d2)
    (h : dateLe d1 d2) : toDays d1 ≤ toDays d2 := by
  obtain ⟨hy1, hm1a, hm1b, hd1a, hd1b⟩ := v1
  obtain ⟨hy2, hm2a, hm2b, hd2a, hd2b⟩ := v2
  rcases h with hyy | ⟨hye, hmm | ⟨hme, hdd⟩⟩
  · -- different years
    have hb1 : (daysBeforeMonth d1.year d1.month : ℤ) + (d1.day : ℤ) ≤
        365 + (if isLeap d1.year = true then 1 else 0) := by
      have := daysBeforeMonth_day_le d1.year d1.month d1.day hm1a hm1b hd1b
      split_ifs at this ⊢ <;> exact_mod_cast this
    have hb2 : (1 : ℤ) ≤ (daysBeforeMonth d2.year d2.month : ℤ) + (d2.day : ℤ) := by
      have : (0 : ℤ) ≤ (daysBeforeMonth d2.year d2.month : ℤ) := Int.natCast_nonneg _
      omega
    have hsucc : leapsUpTo d1.year =
        leapsUpTo (d1.year - 1) + (if isLeap d1.year = true then 1 else 0) := by
      have := leapsUpTo_succ (d1.year - 1)
      rw [show d1.year - 1 + 1 = d1.year by omega] at this
      exact this
    have hmono : leapsUpTo d1.year ≤ leapsUpTo (d2.year - 1) :=
      leapsUpTo_mono (by omega)
    rw [toDays, toDays]
    have hyy' : (d1.year : ℤ) + 1 ≤ (d2.year : ℤ) := by exact_mod_cast hyy
    split_ifs at hb1 hsucc <;> omega
  · -- same year, different months
    rw [toDays, toDays, ← hye]
    have hstepZ : (daysBeforeMonth d1.year d1.month : ℤ) +
        (daysInMonth d1.year d1.month : ℤ) ≤
        (daysBeforeMonth d1.year d2.month : ℤ) := by
      exact_mod_cast daysBeforeMonth_step d1.year hm1a hmm hm2b
    have hcast1 : (d1.day : ℤ) ≤ (daysInMonth d1.year d1.month : ℤ) := by
      exact_mod_cast hd1b
    have hcast2 : (1 : ℤ) ≤ (d2.day : ℤ) := by exact_mod_cast hd2a
    omega
  · -- same year and month
    rw [toDays, toDays, ← hye, ← hme]
    have hcast : (d1.day : ℤ) ≤ (d2.day : ℤ) := by exact_mod_cast hdd
    omega

/-- C5.  For a fixed anchor and regime the period index is a function
of the calendar date (hence deterministic) and is monotone with date
order; concretely the bi-weekly index is floor(diffDays/14), the
semi-monthly index is year*24 + month*2 + half with half 0 for days
1-15 and 1 afterwards (month zero-based, as `getMonth()` returns), and
the monthly index is year*12 + month. -/
theorem period_index_monotone :
    (∀ (anchor d1 d2 : Date), validDate d1 → validDate d2 → dateLe d1 d2 →
      biWeekIndex anchor d1 ≤ biWeekIndex anchor d2 ∧
      (getSemiMonthlyInfo d1).index ≤ (getSemiMonthlyInfo d2).index ∧
      (getMonthlyInfo d1).index ≤ (getMonthlyInfo d2).index)
    ∧ (∀ (anchor d : Date), biWeekIndex anchor d = ⌊(diffDays anchor d : ℚ) / 14⌋)
    ∧ (∀ d : Date, (getSemiMonthlyInfo d).index =
        (d.year : ℤ) * 24 + ((d.month : ℤ) - 1) * 2 + (if d.day ≤ 15 then 0 else 1))
    ∧ (∀ d : Date, (getMonthlyInfo d).index =
        (d.year : ℤ) * 12 + ((d.month : ℤ) - 1)) := by
  refine ⟨?_, fun _ _ => rfl, fun _ => rfl, fun _ => rfl⟩
  intro anchor d1 d2 v1 v2 h
  have htd : toDays d1 ≤ toDays d2 := toDays_mono d1 d2 v1 v2 h
  obtain ⟨_, hm1a, hm1b, _, _⟩ := v1
  obtain ⟨_, hm2a, hm2b, _, _⟩ := v2
  refine ⟨?_, ?_, ?_⟩
  · unfold biWeekIndex
    apply Int.floor_mono
    have hdle : diffDays anchor d1 ≤ diffDays anchor d2 := by
      unfold diffDays; omega
    have hq : ((diffDays anchor d1 : ℤ) : ℚ) ≤ ((diffDays anchor d2 : ℤ) : ℚ) := by
      exact_mod_cast hdle
    gcongr
  · rcases h with hyy | ⟨hye, hmon | ⟨hme, hdd⟩⟩ <;>
      simp only [getSemiMonthlyInfo] <;> split_ifs <;> omega
  · rcases h with hyy | ⟨hye, hmon | ⟨hme, hdd⟩⟩ <;>
      simp only [getMonthlyInfo] <;> omega

/-- Witness for `period_index_monotone` at two concrete dates. -/
theorem period_index_monotone_witness :
    validDate ⟨2024, 1, 5⟩ ∧ validDate ⟨2024, 2, 16⟩ ∧
    dateLe ⟨2024, 1, 5⟩ ⟨2024, 2, 16⟩ ∧
    (biWeekIndex monday0 ⟨2024, 1, 5⟩ ≤ biWeekIndex monday0 ⟨2024, 2, 16⟩ ∧
      (getSemiMonthlyInfo ⟨2024, 1, 5⟩).index ≤ (getSemiMonthlyInfo ⟨2024, 2, 16⟩).index ∧
      (getMonthlyInfo ⟨2024, 1, 5⟩).index ≤ (getMonthlyInfo ⟨2024, 2, 16⟩).index) :=
  ⟨by decide, by decide, by decide,
    period_index_monotone.1 monday0 ⟨2024, 1, 5⟩ ⟨2024, 2, 16⟩
      (by decide) (by decide) (by decide)⟩

/-- C6 counterexample.  Direct hour entry does not round the stored
hours to 2 decimals: with stored lunchMinutes 20 and input 8 the code
stores 8 - 1/3 = 23/3 hours, not round2(8 - 20/60) = 7.67; and on a
date with no prior entry the lunch deduction is 0 (not the 30-minute
default): input 8 stores 8 hours, not 7.5. -/
theorem hour_input_counterexample :
    handleHourInput [{ date := monday0, lunchMinutes := some 20 }] monday0
        (.num 8) =
      some [{ date := monday0, hours := some (23/3), lunchMinutes := some 20,
              originalHours := some 8 }] ∧
    ¬ ((23 : ℚ)/3 = round2 (max 0 (8 - 20/60))) ∧
    handleHourInput [] monday0 (.num 8) =
      some [{ date := monday0, hours := some 8, lunchMinutes := some 0,
              originalHours := some 8 }] ∧
    ¬ ((8 : ℚ) = max 0 (8 - 30/60)) := by
  refine ⟨?_, by norm_num [round2, jsRound], ?_, by norm_num⟩
  · norm_num [handleHourInput, getLunchMinutes, clampLunchMinutes, jsRound,
      List.filter, List.find?]
  · norm_num [handleHourInput, getLunchMinutes, List.filter, List.find?]

/-- C6 (amended).  Direct hour entry rejects, without mutating the
collection, any non-numeric input and any numeric value below 0 or
above 24; otherwise it stores originalHours = n and workedHours =
max(0, n - lunchMinutes/60) with no 2-decimal rounding, where
lunchMinutes is the date's clamped stored value when present, 0 when
the legacy lunch:false flag is set, 30 when an entry exists with
neither, and 0 when the date has no entry at all. -/
theorem hour_input_validation :
    (∀ (s : List DayHours) (d : Date), handleHourInput s d .notNum = none)
    ∧ (∀ (s : List DayHours) (d : Date) (n : ℚ), n < 0 ∨ 24 < n →
        handleHourInput s d (.num n) = none)
    ∧ (∀ (s : List DayHours) (d : Date) (n : ℚ), 0 ≤ n → n ≤ 24 →
        handleHourInput s d (.num n) =
          some ((s.filter (fun p => p.date ≠ d)) ++
            [{ date := d,
               hours := some (max 0 (n -
                 getLunchMinutes (s.find? (fun p => p.date = d)) / 60)),
               lunchMinutes := some (getLunchMinutes (s.find? (fun p => p.date = d))),
               originalHours := some n }]))
    ∧ getLunchMinutes none = 0
    ∧ (∀ (e : DayHours) (v : ℚ), e.lunchMinutes = some v →
        getLunchMinutes (some e) = ((max 0 (min 180 (jsRound v)) : ℤ) : ℚ))
    ∧ (∀ e : DayHours, e.lunchMinutes = none → e.lunch = some false →
        getLunchMinutes (some e) = 0)
    ∧ (∀ e : DayHours, e.lunchMinutes = none → ¬ e.lunch = some false →
        getLunchMinutes (some e) = 30) := by
  refine ⟨fun s d => rfl, ?_, ?_, rfl, ?_, ?_, ?_⟩
  · intro s d n hbad
    rw [handleHourInput, if_pos hbad]
  · intro s d n h0 h24
    rw [handleHourInput]
    rw [if_neg (fun hc => hc.elim (fun hlt => absurd hlt (not_lt.mpr h0))
      (fun hgt => absurd hgt (not_lt.mpr h24)))]
  · intro e v hv
    simp [getLunchMinutes, hv, clampLunchMinutes]
  · intro e hv hl
    simp [getLunchMinutes, hv, hl]
  · intro e hv hl
    simp [getLunchMinutes, hv, hl, DEFAULT_LUNCH_MINUTES]

/-- Witness for `hour_input_validation`: valid entry of 8 hours on an
empty collection. -/
theorem hour_input_validation_witness :
    (0 : ℚ) ≤ 8 ∧ (8 : ℚ) ≤ 24 ∧
    handleHourInput [] monday0 (.num 8) =
      some ((List.filter (fun p => p.date ≠ monday0) []) ++
        [{ date := monday0,
           hours := some (max 0 ((8 : ℚ) -
             getLunchMinutes (List.find? (fun p => p.date = monday0) []) / 60)),
           lunchMinutes := some (getLunchMinutes
             (List.find? (fun p => p.date = monday0) [])),
           originalHours := some 8 }]) :=
  ⟨by norm_num, by norm_num,
    hour_input_validation.2.2.1 [] monday0 8 (by norm_num) (by norm_num)⟩

/-- An entry created by typing 8 hours with the default 30-minute
lunch: stored workedHours 7.5, retained originalHours 8. -/
def lunchState : List DayHours :=
  [{ date := monday0, hours := some 7.5, lunchMinutes := some 30,
     originalHours := some 8 }]

/-- C7.  A lunch-minutes change on a day with no time range re-derives
workedHours from the retained originalHours as
max(0, round2(originalHours - lunchMinutes/60)), never from the
previous workedHours; concretely, with originalHours 8, setting
lunchMinutes 30 yields 7.5, toggling to 0 yields 8, and toggling back
to 30 restores exactly the original state (7.5 again, no compounding). -/
theorem lunch_rederive :
    (∀ (s : List DayHours) (d : Date) (q : ℚ) (ent : DayHours) (o : ℚ),
      s.find? (fun p => p.date = d) = some ent →
      jsTruthy ent.start = false → jsTruthy ent.endT = false →
      ent.originalHours = some o →
      handleLunchMinutesInput s d (.num q) =
        (s.filter (fun p => p.date ≠ d)) ++
          [{ ent with
             lunchMinutes := some (clampLunchMinutes (some q)),
             originalHours := some o,
             hours := some (max 0 (round2 (o - clampLunchMinutes (some q) / 60))) }])
    ∧ handleLunchMinutesInput lunchState monday0 (.num 30) = lunchState
    ∧ handleLunchMinutesInput lunchState monday0 (.num 0) =
        [{ date := monday0, hours := some 8, lunchMinutes := some 0,
           originalHours := some 8 }]
    ∧ handleLunchMinutesInput
        (handleLunchMinutesInput lunchState monday0 (.num 0)) monday0 (.num 30) =
        lunchState := by
  have h3 : handleLunchMinutesInput lunchState monday0 (.num 0) =
      [{ date := monday0, hours := some 8, lunchMinutes := some 0,
         originalHours := some 8 }] := by
    simp only [handleLunchMinutesInput, lunchState, monday0, List.find?, List.filter]
    norm_num [getOriginalHours, jsTruthy, clampLunchMinutes, round2, jsRound]
    exact Option.some_ne_none _
  refine ⟨?_, ?_, h3, ?_⟩
  · intro s d q ent o hf hs he hor
    simp [handleLunchMinutesInput, hf, hs, he, hor, getOriginalHours]
  · simp only [handleLunchMinutesInput, lunchState, monday0, List.find?, List.filter]
    norm_num [getOriginalHours, jsTruthy, clampLunchMinutes, round2, jsRound]
  · rw [h3]
    simp only [handleLunchMinutesInput, lunchState, monday0, List.find?, List.filter]
    norm_num [getOriginalHours, jsTruthy, clampLunchMinutes, round2, jsRound]
    exact Option.some_ne_none _

/-- Witness for `lunch_rederive` on the concrete entry. -/
theorem lunch_rederive_witness :
    lunchState.find? (fun p => p.date = monday0) =
      some { date := monday0, hours := some 7.5, lunchMinutes := some 30,
             originalHours := some 8 } ∧
    handleLunchMinutesInput lunchState monday0 (.num 0) =
      (lunchState.filter (fun p => p.date ≠ monday0)) ++
        [{ ({ date := monday0, hours := some 7.5, lunchMinutes := some 30,
              originalHours := some 8 } : DayHours) with
           lunchMinutes := some (clampLunchMinutes (some 0)),
           originalHours := some 8,
           hours := some (max 0 (round2 (8 - clampLunchMinutes (some 0) / 60))) }] := by
  have hf : lunchState.find? (fun p => p.date = monday0) =
      some { date := monday0, hours := some 7.5, lunchMinutes := some 30,
             originalHours := some 8 } := by
    norm_num [lunchState, List.find?]
  exact ⟨hf, lunch_rederive.1 lunchState monday0 0 _ 8 hf rfl rfl rfl⟩

/-! ## Uniqueness of dates. -/

/-- At most one entry per calendar date. -/
def uniqueDates (s : List DayHours) : Prop :=
  s.Pairwise (fun a b => a.date ≠ b.date)

/-- The three collection-editing operations. -/
inductive EditOp where
  | hourInput (d : Date) (raw : RawInput)
  | timeInput (d : Date) (f : TimeField) (v : Option (ℕ × ℕ))
  | lunchInput (d : Date) (raw : RawInput)

/-- Resulting collection of an edit (a rejected hour input leaves the
collection unchanged). -/
def applyEdit (op : EditOp) (s : List DayHours) : List DayHours :=
  match op with
  | .hourInput d raw => (handleHourInput s d raw).getD s
  | .timeInput d f v => handleTimeInput s d f v
  | .lunchInput d raw => handleLunchMinutesInput s d raw

theorem uniqueDates_filter (s : List DayHours) (d : Date) (hu : uniqueDates s) :
    uniqueDates (s.filter (fun p => p.date ≠ d)) :=
  List.Pairwise.sublist (List.filter_sublist s) hu

theorem uniqueDates_filter_append (s : List DayHours) (d : Date) (e : DayHours)
    (hu : uniqueDates s) (he : e.date = d) :
    uniqueDates ((s.filter (fun p => p.date ≠ d)) ++ [e]) := by
  rw [uniqueDates, List.pairwise_append]
  refine ⟨uniqueDates_filter s d hu, List.pairwise_singleton _ _, ?_⟩
  intro a ha b hb
  rw [List.mem_singleton] at hb
  subst hb
  have hmem := List.of_mem_filter ha
  rw [he]
  simpa using hmem

theorem find?_getD_date (s : List DayHours) (d : Date) (dflt : DayHours)
    (hd : dflt.date = d) :
    ((s.find? (fun p => p.date = d)).getD dflt).date = d := by
  cases hf : s.find? (fun p => p.date = d) with
  | none => simpa using hd
  | some e =>
    have hp := List.find?_some hf
    simp at hp
    simpa using hp

/-- C9.  Every collection-editing operation (direct hour entry,
time-range entry, lunch-minutes change) preserves the at-most-one-entry
-per-date invariant: it removes any existing entry for the target date
and appends at most one replacement. -/
theorem unique_dates_invariant (op : EditOp) (s : List DayHours)
    (hu : uniqueDates s) : uniqueDates (applyEdit op s) := by
  cases op with
  | hourInput d raw =>
    cases raw with
    | blank =>
      simpa [applyEdit, handleHourInput] using uniqueDates_filter s d hu
    | notNum => simpa [applyEdit, handleHourInput] using hu
    | num n =>
      rw [applyEdit, handleHourInput]
      by_cases hbad : n < 0 ∨ n > 24
      · rw [if_pos hbad]
        simpa using hu
      · rw [if_neg hbad, Option.getD_some]
        exact uniqueDates_filter_append s d _ hu rfl
  | timeInput d f v =>
    rw [applyEdit, handleTimeInput]
    apply uniqueDates_filter_append s d _ hu
    cases f <;> simp [setTimeField] <;>
      exact find?_getD_date s d _ rfl
  | lunchInput d raw =>
    cases raw with
    | blank =>
      rw [applyEdit, handleLunchMinutesInput]
      apply uniqueDates_filter_append s d _ hu
      simpa using find?_getD_date s d _ rfl
    | notNum => simpa [applyEdit, handleLunchMinutesInput] using hu
    | num q =>
      rw [applyEdit, handleLunchMinutesInput]
      apply uniqueDates_filter_append s d _ hu
      have hdate : ((s.find? (fun p => p.date = d)).getD { date := d }).date = d :=
        find?_getD_date s d _ rfl
      repeat' split
      all_goals simp_all

/-- Witness for `unique_dates_invariant` on a concrete collection. -/
theorem unique_dates_invariant_witness :
    uniqueDates lunchState ∧
    uniqueDates (applyEdit (.hourInput monday0 (.num 8)) lunchState) := by
  have hu : uniqueDates lunchState := by
    rw [uniqueDates, lunchState]
    exact List.pairwise_singleton _ _
  exact ⟨hu, unique_dates_invariant (.hourInput monday0 (.num 8)) lunchState hu⟩

/-- C10.  A valid direct hour entry replaces the date's entry wholesale
with a record carrying only date, hours, lunchMinutes and originalHours:
the replacement's start and end clock fields are absent, so any time
range previously stored for that date is discarded. -/
theorem hour_input_discards_times (s : List DayHours) (d : Date) (n : ℚ)
    (res : List DayHours) (h0 : 0 ≤ n) (h24 : n ≤ 24)
    (hres : handleHourInput s d (.num n) = some res) :
    res = (s.filter (fun p => p.date ≠ d)) ++
      [{ date := d, start := none, endT := none, lunch := none,
         hours := some (max 0 (n -
           getLunchMinutes (s.find? (fun p => p.date = d)) / 60)),
         lunchMinutes := some (getLunchMinutes (s.find? (fun p => p.date = d))),
         originalHours := some n }] ∧
    ∀ e ∈ res, e.date = d → e.start = none ∧ e.endT = none := by
  rw [handleHourInput] at hres
  rw [if_neg (fun hc => hc.elim (fun hlt => absurd hlt (not_lt.mpr h0))
    (fun hgt => absurd hgt (not_lt.mpr h24))), Option.some_inj] at hres
  subst hres
  refine ⟨rfl, ?_⟩
  intro e he hed
  rcases List.mem_append.mp he with hf | hl
  · have := List.of_mem_filter hf
    simp [hed] at this
  · rw [List.mem_singleton] at hl
    subst hl
    exact ⟨rfl, rfl⟩

/-- A collection holding a time-range entry for the sample Monday. -/
def timedState : List DayHours :=
  [{ date := monday0, start := some (.clock 9 0), endT := some (.clock 17 30),
     hours := some 8, lunchMinutes := some 30 }]

/-- Witness for `hour_input_discards_times`: entering 6 hours over a
stored 09:00-17:30 range drops the clock times. -/
theorem hour_input_discards_times_witness :
    (0 : ℚ) ≤ 6 ∧ (6 : ℚ) ≤ 24 ∧
    handleHourInput timedState monday0 (.num 6) =
      some ((timedState.filter (fun p => p.date ≠ monday0)) ++
        [{ date := monday0, start := none, endT := none, lunch := none,
           hours := some (max 0 ((6 : ℚ) -
             getLunchMinutes (timedState.find? (fun p => p.date = monday0)) / 60)),
           lunchMinutes := some (getLunchMinutes
             (timedState.find? (fun p => p.date = monday0))),
           originalHours := some 6 }]) ∧
    (∀ e ∈ (timedState.filter (fun p => p.date ≠ monday0)) ++
        [{ date := monday0, start := none, endT := none, lunch := none,
           hours := some (max 0 ((6 : ℚ) -
             getLunchMinutes (timedState.find? (fun p => p.date = monday0)) / 60)),
           lunchMinutes := some (getLunchMinutes
             (timedState.find? (fun p => p.date = monday0))),
           originalHours := some 6 }],
      e.date = monday0 → e.start = none ∧ e.endT = none) := by
  have hres : handleHourInput timedState monday0 (.num 6) =
      some ((timedState.filter (fun p => p.date ≠ monday0)) ++
        [{ date := monday0, start := none, endT := none, lunch := none,
           hours := some (max 0 ((6 : ℚ) -
             getLunchMinutes (timedState.find? (fun p => p.date = monday0)) / 60)),
           lunchMinutes := some (getLunchMinutes
             (timedState.find? (fun p => p.date = monday0))),
           originalHours := some 6 }]) := by
    rw [handleHourInput]
    norm_num
  have hmain := hour_input_discards_times timedState monday0 6 _
    (by norm_num) (by norm_num) hres
  exact ⟨by norm_num, by norm_num, hres, hmain.2⟩

/-! ## Provenance of engine rows and summary days. -/

/-- Every emitted row carries the date of some processed entry. -/
theorem mem_processRows_date (rate : ℚ) (anchor : Date) (u : Bool) (bt : ℤ → ℚ) :
    ∀ (l : List DayRec) (w : ℤ → ℚ) (row : DetailedDay),
      row ∈ processRows rate anchor u bt w l → ∃ r ∈ l, row.date = r.date := by
  intro l
  induction l with
  | nil => intro w row hrow; simp [processRows] at hrow
  | cons r0 rest ih =>
    intro w row hrow
    rw [processRows] at hrow
    have hnext : ∀ w', row ∈ processRows rate anchor u bt w' rest →
        ∃ r ∈ r0 :: rest, row.date = r.date := by
      intro w' hmem
      obtain ⟨r, hr, hdate⟩ := ih w' row hmem
      exact ⟨r, List.mem_cons_of_mem _ hr, hdate⟩
    by_cases h0 : r0.hours ≤ 0
    · rw [if_pos h0] at hrow
      rcases List.mem_cons.mp hrow with rfl | hrow'
      · exact ⟨r0, List.mem_cons_self _ _, rfl⟩
      · exact hnext _ hrow'
    · rw [if_neg h0] at hrow
      cases u with
      | true =>
        simp only [if_true] at hrow
        rcases List.mem_cons.mp hrow with rfl | hrow'
        · exact ⟨r0, List.mem_cons_self _ _, rfl⟩
        · exact hnext _ hrow'
      | false =>
        simp only [if_false] at hrow
        rcases List.mem_cons.mp hrow with rfl | hrow'
        · exact ⟨r0, List.mem_cons_self _ _, rfl⟩
        · exact hnext _ hrow'

/-- An entry with exactly zero stored hours yields its all-zero row. -/
theorem zeroDay_mem_processRows (rate : ℚ) (anchor : Date) (u : Bool)
    (bt : ℤ → ℚ) :
    ∀ (l : List DayRec) (w : ℤ → ℚ) (r : DayRec), r ∈ l → r.hours = 0 →
      zeroDay r.date ∈ processRows rate anchor u bt w l := by
  intro l
  induction l with
  | nil => intro w r hr; simp at hr
  | cons r0 rest ih =>
    intro w r hr hz
    rw [processRows]
    rcases List.mem_cons.mp hr with rfl | hr'
    · rw [if_pos (le_of_eq hz)]
      exact List.mem_cons_self _ _
    · by_cases h0 : r0.hours ≤ 0
      · rw [if_pos h0]
        exact List.mem_cons_of_mem _ (ih w r hr' hz)
      · rw [if_neg h0]
        cases u with
        | true =>
          simp only [if_true]
          exact List.mem_cons_of_mem _ (ih w r hr' hz)
        | false =>
          simp only [if_false]
          exact List.mem_cons_of_mem _ (ih _ r hr' hz)

theorem mem_entriesOf {s : List DayHours} {r : DayRec} (h : r ∈ entriesOf s) :
    ∃ e ∈ s, e.date = r.date ∧ e.hours = some r.hours := by
  rw [entriesOf, List.mem_filterMap] at h
  obtain ⟨e, he, hf⟩ := h
  rcases Option.map_eq_some'.mp hf with ⟨h0, hh, heq⟩
  subst heq
  exact ⟨e, he, rfl, hh⟩

theorem entriesOf_mem {s : List DayHours} {e : DayHours} {h0 : ℚ}
    (he : e ∈ s) (hh : e.hours = some h0) : (⟨e.date, h0⟩ : DayRec) ∈ entriesOf s := by
  rw [entriesOf, List.mem_filterMap]
  exact ⟨e, he, by rw [hh]; rfl⟩

theorem lookup_mem {acc : List (ℤ × SummaryBucket)} {k : ℤ} {b : SummaryBucket}
    (h : acc.lookup k = some b) : (k, b) ∈ acc := by
  induction acc with
  | nil => simp [List.lookup] at h
  | cons kv rest ih =>
    rcases kv with ⟨k', v'⟩
    rw [List.lookup] at h
    cases hk : k == k' with
    | false =>
      rw [hk] at h
      exact List.mem_cons_of_mem _ (ih h)
    | true =>
      rw [hk] at h
      simp only [beq_iff_eq] at hk
      subst hk
      simp at h
      subst h
      exact List.mem_cons_self _ _

theorem mem_setAssoc {acc : List (ℤ × SummaryBucket)} {k : ℤ} {v kb} :
    kb ∈ setAssoc acc k v → kb ∈ acc ∨ kb = (k, v) := by
  induction acc with
  | nil => intro h; simp [setAssoc] at h; exact Or.inr h
  | cons kv rest ih =>
    intro h
    rw [setAssoc] at h
    by_cases hk : kv.1 = k
    · rw [if_pos hk] at h
      rcases List.mem_cons.mp h with rfl | h'
      · exact Or.inr rfl
      · exact Or.inl (List.mem_cons_of_mem _ h')
    · rw [if_neg hk] at h
      rcases List.mem_cons.mp h with rfl | h'
      · exact Or.inl (List.mem_cons_self _ _)
      · rcases ih h' with hin | heq
        · exact Or.inl (List.mem_cons_of_mem _ hin)
        · exact Or.inr heq

theorem pushDay_days {uM uS : Bool} {anchor : Date}
    {acc : List (ℤ × SummaryBucket)} {row : DetailedDay} {kb} :
    kb ∈ pushDay uM uS anchor acc row → ∀ sd ∈ kb.2.days,
      (∃ kb0 ∈ acc, sd ∈ kb0.2.days) ∨ sd.date = row.date := by
  intro hkb sd hsd
  rw [pushDay] at hkb
  rcases mem_setAssoc hkb with hin | heq
  · exact Or.inl ⟨kb, hin, hsd⟩
  · subst heq
    simp only at hsd
    set info := periodInfoOf uM uS anchor row.date with hinfo
    rcases hlu : (acc.lookup info.index) with _ | b
    · rw [hlu] at hsd
      simp only [Option.getD_none] at hsd
      have : sd ∈ ([] : List SummaryDay) ++
          [{ date := row.date, hours := row.hours, earnings := row.earnings }] := by
        split_ifs at hsd <;> simpa using hsd
      simp at this
      exact Or.inr (by rw [this])
    · rw [hlu] at hsd
      simp only [Option.getD_some] at hsd
      have hsd' : sd ∈ b.days ++
          [{ date := row.date, hours := row.hours, earnings := row.earnings }] := by
        split_ifs at hsd <;> simpa using hsd
      rcases List.mem_append.mp hsd' with hb | hnew
      · exact Or.inl ⟨(info.index, b), lookup_mem hlu, hb⟩
      · rw [List.mem_singleton] at hnew
        exact Or.inr (by rw [hnew])

theorem mem_days_foldl {uM uS : Bool} {anchor : Date} :
    ∀ (rows : List DetailedDay) (acc : List (ℤ × SummaryBucket)) kb,
      kb ∈ rows.foldl (pushDay uM uS anchor) acc → ∀ sd ∈ kb.2.days,
      (∃ kb0 ∈ acc, sd ∈ kb0.2.days) ∨ ∃ row ∈ rows, sd.date = row.date := by
  intro rows
  induction rows with
  | nil => intro acc kb hkb sd hsd; exact Or.inl ⟨kb, by simpa using hkb, hsd⟩
  | cons row rest ih =>
    intro acc kb hkb sd hsd
    rw [List.foldl_cons] at hkb
    rcases ih _ kb hkb sd hsd with ⟨kb0, hkb0, hsd0⟩ | ⟨row', hrow', hdate⟩
    · rcases pushDay_days hkb0 sd hsd0 with hacc | hnew
      · exact Or.inl hacc
      · exact Or.inr ⟨row, List.mem_cons_self _ _, hnew⟩
    · exact Or.inr ⟨row', List.mem_cons_of_mem _ hrow', hdate⟩

/-- Every date in a summary bucket's day list is the date of some
detailed row. -/
theorem biWeeklySummary_days {rows : List DetailedDay} {uM uS : Bool}
    {anchor : Date} {srow : SummaryRow}
    (h : srow ∈ biWeeklySummary rows uM uS anchor) :
    ∀ sd ∈ srow.days, ∃ row ∈ rows, sd.date = row.date := by
  intro sd hsd
  rw [biWeeklySummary, List.mem_map] at h
  obtain ⟨p, hp, hsrow⟩ := h
  have hdays : srow.days = p.2.2.days := by rw [← hsrow]
  have hmem : p.2 ∈ rows.foldl (pushDay uM uS anchor) [] := by
    have hz := hp
    rw [List.enum_eq_zip_range] at hz
    exact (List.of_mem_zip hz).2
  rcases mem_days_foldl rows [] p.2 hmem sd (by rw [← hdays]; exact hsd) with
    ⟨kb0, hkb0, _⟩ | hfound
  · simp at hkb0
  · exact hfound

/-- C8.  Clearing a date's hour input with the empty string deletes the
DayEntry entirely: no entry with that date remains, the date appears in
no detailed row and in no period summary's day list, not even as a
zero-hours row; whereas a stored entry with hours exactly 0 does yield
the all-zero row. -/
theorem clear_deletes_entirely :
    (∀ (s : List DayHours) (d : Date) (res : List DayHours),
      handleHourInput s d .blank = some res →
      (∀ e ∈ res, e.date ≠ d) ∧
      (∀ (rate : ℚ) (anchor : Date) (u : Bool) (row : DetailedDay),
        row ∈ computeDetailedDays res rate anchor u → row.date ≠ d) ∧
      (∀ (rate : ℚ) (anchor : Date) (u uM uS : Bool) (srow : SummaryRow)
        (sd : SummaryDay),
        srow ∈ biWeeklySummary (computeDetailedDays res rate anchor u) uM uS anchor →
        sd ∈ srow.days → sd.date ≠ d))
    ∧ (∀ (s : List DayHours) (rate : ℚ) (anchor : Date) (u : Bool)
        (e : DayHours), e ∈ s → e.hours = some 0 →
        zeroDay e.date ∈ computeDetailedDays s rate anchor u) := by
  constructor
  · intro s d res hres
    rw [handleHourInput, Option.some_inj] at hres
    subst hres
    have hent : ∀ e ∈ s.filter (fun p => p.date ≠ d), e.date ≠ d := by
      intro e he
      have := List.of_mem_filter he
      simpa using this
    have hrows : ∀ (rate : ℚ) (anchor : Date) (u : Bool) (row : DetailedDay),
        row ∈ computeDetailedDays (s.filter (fun p => p.date ≠ d)) rate anchor u →
        row.date ≠ d := by
      intro rate anchor u row hrow
      rw [computeDetailedDays_eq_processRows] at hrow
      obtain ⟨r, hr, hdate⟩ := mem_processRows_date rate anchor u _ _ _ row hrow
      rw [sortEntries, List.mem_mergeSort] at hr
      obtain ⟨e, he, hed, _⟩ := mem_entriesOf hr
      rw [hdate, ← hed]
      exact hent e he
    refine ⟨hent, hrows, ?_⟩
    intro rate anchor u uM uS srow sd hsrow hsd
    obtain ⟨row, hrow, hdate⟩ := biWeeklySummary_days hsrow sd hsd
    rw [hdate]
    exact hrows rate anchor u row hrow
  · intro s rate anchor u e he hh
    rw [computeDetailedDays_eq_processRows]
    exact zeroDay_mem_processRows rate anchor u _ _ _ (⟨e.date, 0⟩ : DayRec)
      (by rw [sortEntries, List.mem_mergeSort]; exact entriesOf_mem he hh) rfl

/-- Two stored days: 8 hours on the Monday, an explicit 0 on the
Tuesday. -/
def twoDayState : List DayHours :=
  [ { date := ⟨2024, 1, 1⟩, hours := some 8 },
    { date := ⟨2024, 1, 2⟩, hours := some 0 } ]

/-- Witness for `clear_deletes_entirely`: clear the Monday, keep the
zero-hours Tuesday. -/
theorem clear_deletes_entirely_witness :
    handleHourInput twoDayState monday0 .blank =
      some [({ date := ⟨2024, 1, 2⟩, hours := some 0 } : DayHours)] ∧
    (∀ e ∈ [({ date := ⟨2024, 1, 2⟩, hours := some 0 } : DayHours)],
      e.date ≠ monday0) ∧
    ({ date := ⟨2024, 1, 2⟩, hours := some 0 } : DayHours) ∈ twoDayState ∧
    zeroDay ⟨2024, 1, 2⟩ ∈ computeDetailedDays twoDayState 20 monday0 false := by
  have hres : handleHourInput twoDayState monday0 .blank =
      some [({ date := ⟨2024, 1, 2⟩, hours := some 0 } : DayHours)] := by
    rw [handleHourInput]
    norm_num [twoDayState, monday0, List.filter]
  have hmem : ({ date := ⟨2024, 1, 2⟩, hours := some 0 } : DayHours) ∈ twoDayState := by
    rw [twoDayState]
    exact List.mem_cons_of_mem _ (List.mem_cons_self _ _)
  refine ⟨hres, (clear_deletes_entirely.1 twoDayState monday0 _ hres).1, hmem, ?_⟩
  exact clear_deletes_entirely.2 twoDayState 20 monday0 false _ hmem rfl

end WorkToBuy
